import Mathlib

/-!
Verification of `src/ethereum/ecrecover.go` (package `ethereum`), which
emulates the Ethereum `ecrecover` precompiled contract.

Byte strings are embedded as `List Nat` whose elements are below 256 where
that matters; a Go byte subtraction is modelled with an explicit `% 256`.
The external collaborators (the secp256k1 recovery primitive and the
Keccak-256 hash) are abstract function parameters gathered in a `Crypto`
structure; the small go-ethereum helpers this file calls
(`common.RightPadBytes`, `common.LeftPadBytes`, `common.BytesToAddress`,
`crypto.ValidateSignatureValues`) are not part of the repository and are
modelled from the specification's description of their contracts.
Runtime faults (out-of-bounds slicing) are modelled by an `Option` result:
`none` means the Go code panics.
-/

namespace EcrecoverGo

/-- Byte slice `l[a:b]` of a Go slice, as used on an in-bounds index range. -/
def slice (l : List Nat) (a b : Nat) : List Nat :=
  (l.take b).drop a

/-- Indexing `l[i]` on a Go slice whose length is known to exceed `i`
(out of range would panic; every use below is in bounds after padding). -/
def byteAt (l : List Nat) (i : Nat) : Nat :=
  l.getD i 0

/-- From the source (`allZero`): true iff every byte of the slice is zero. -/
def allZero (b : List Nat) : Bool :=
  b.all (fun x => x == 0)

/-- Modelled from the spec: the external right-padding helper
`common.RightPadBytes` — input "is first right-padded with zero bytes up
to 128 bytes"; a slice already at least `l` long is returned unchanged. -/
def RightPadBytes (s : List Nat) (l : Nat) : List Nat :=
  if l ≤ s.length then s else s ++ List.replicate (l - s.length) 0

/-- Modelled from the spec: the external left-padding helper
`common.LeftPadBytes` — "left-pad to 32 bytes with zeros"; a slice already
at least `l` long is returned unchanged. -/
def LeftPadBytes (s : List Nat) (l : Nat) : List Nat :=
  if l ≤ s.length then s else List.replicate (l - s.length) 0 ++ s

/-- Big-endian interpretation of a byte string, as `new(big.Int).SetBytes`:
`r = bigEndianInt(input[64:96])` in the spec. -/
def setBytes (b : List Nat) : Nat :=
  b.foldl (fun acc x => acc * 256 + x) 0

/-- The secp256k1 group order `curveOrder` (geth's `secp256k1N`). -/
def secp256k1N : Nat :=
  0xfffffffffffffffffffffffffffffffebaaedce6af48a03bbfd25e8cd0364141

/-- Modelled from the spec: the external signature-range validator
`crypto.ValidateSignatureValues` —
`isValidSignature(recoveryId: byte, r: bigint, s: bigint, enforceLowS: bool)`:
`recoveryId ∈ \x7b0, 1\x7d`, `r` and `s` each in the open range
`(0, curveOrder)`, and with `enforceLowS` additionally `s ≤ curveOrder/2`. -/
def ValidateSignatureValues (v r s : Nat) (enforceLowS : Bool) : Bool :=
  decide (v = 0 ∨ v = 1)
    && decide (0 < r ∧ r < secp256k1N)
    && decide (0 < s ∧ s < secp256k1N)
    && (!enforceLowS || decide (s ≤ secp256k1N / 2))

/-- The two external cryptographic primitives, kept abstract:
`crypto.Ecrecover(hash, sig)` returning a public key or an error
(modelled as `Option`), and `crypto.Keccak256`. -/
structure Crypto where
  ecrecover : List Nat → List Nat → Option (List Nat)
  keccak256 : List Nat → List Nat

/-- The external primitives' output-size contract from the spec: Keccak-256
returns a 32-byte digest. -/
def Crypto.Keccak32 (C : Crypto) : Prop :=
  ∀ b, (C.keccak256 b).length = 32

def ecRecoverInputLength : Nat := 128

/-- From the source (`PrecompiledEcRecover`): right-pad the input to 128
bytes, parse `r = input[64:96]`, `s = input[96:128]`, `v = input[63] - 27`
(byte subtraction, hence the explicit `% 256`), reject to `(nil, nil)`
unless `input[32:63]` is all zero and the signature values validate with
`enforceLowS = false`; otherwise call `Ecrecover(input[:32],
input[64:128] ++ [v])`, reject to `(nil, nil)` on its error, and on success
return `LeftPadBytes(Keccak256(pubKey[1:])[12:], 32)` with a nil error. -/
def PrecompiledEcRecover (C : Crypto) (input0 : List Nat) :
    List Nat × Option Unit :=
  let input := RightPadBytes input0 ecRecoverInputLength
  let r := setBytes (slice input 64 96)
  let s := setBytes (slice input 96 128)
  let v := (byteAt input 63 + 229) % 256
  if !allZero (slice input 32 63) || !ValidateSignatureValues v r s false then
    ([], none)
  else
    match C.ecrecover (slice input 0 32) (slice input 64 128 ++ [v]) with
    | none => ([], none)
    | some pubKey =>
        (LeftPadBytes ((C.keccak256 (pubKey.drop 1)).drop 12) 32, none)

/-- Modelled from the spec: the external `common.BytesToAddress` — an
Ethereum address is 20 bytes, taken from the low (last) bytes of the given
slice, left-padded with zeros when shorter. -/
def BytesToAddress (b : List Nat) : List Nat :=
  let b0 := if 20 < b.length then b.drop (b.length - 20) else b
  List.replicate (20 - b0.length) 0 ++ b0

/-- The 128-byte buffer built by `EcRecover`: a zero-initialized buffer
with `Hash[:32]` copied to `[0:32]`, `VRS[0]` written at index 63 and
`VRS[1:65]` copied to `[64:128]` (Go `copy` copies the shorter length and
leaves the rest zero). -/
def packInput (Hash VRS : List Nat) : List Nat :=
  Hash.take 32 ++ List.replicate (32 - Hash.length) 0
    ++ List.replicate 31 0 ++ [VRS.headD 0]
    ++ (VRS.drop 1).take 64 ++ List.replicate (64 - (VRS.length - 1)) 0

/-- From the source (`EcRecover`): build the 128-byte precompile input from
a 32-byte hash and a 65-byte `v‖r‖s` signature, delegate to
`PrecompiledEcRecover`, propagate its error, and otherwise slice
`output[12:32]` into an address. `none` models a runtime panic: reading
`VRS[0]` / `VRS[1:65]` with `VRS` shorter than 65 bytes, or slicing
`output[12:32]` when the output is shorter than 32 bytes. -/
def EcRecover (C : Crypto) (Hash VRS : List Nat) :
    Option (List Nat × Option Unit) :=
  if VRS.length < 65 then none
  else
    let out := PrecompiledEcRecover C (packInput Hash VRS)
    match out.2 with
    | some e => some (List.replicate 20 0, some e)
    | none =>
        if out.1.length < 32 then none
        else some (BytesToAddress ((out.1.take 32).drop 12), none)

end EcrecoverGo

namespace EcrecoverGo

/-! ### Helper lemmas -/

theorem RightPadBytes_length (s : List Nat) (l : Nat) :
    (RightPadBytes s l).length = max l s.length := by
  unfold RightPadBytes
  split <;> simp <;> omega

theorem LeftPadBytes_length (s : List Nat) (l : Nat) :
    (LeftPadBytes s l).length = max l s.length := by
  unfold LeftPadBytes
  split <;> simp <;> omega

theorem slice_take (l : List Nat) (a b n : Nat) (h : b ≤ n) :
    slice (l.take n) a b = slice l a b := by
  unfold slice
  rw [List.take_take, Nat.min_eq_left h]

theorem byteAt_take (l : List Nat) (i n : Nat) (h : i < n) :
    byteAt (l.take n) i = byteAt l i := by
  unfold byteAt
  simp [List.getD, List.getElem?_take_of_lt h]

theorem setBytes_replicate_zero (n : Nat) :
    setBytes (List.replicate n 0) = 0 := by
  unfold setBytes
  induction n with
  | zero => rfl
  | succ k ih => simpa [List.replicate_succ] using ih

theorem allZero_replicate (n : Nat) : allZero (List.replicate n 0) = true := by
  simp [allZero]

theorem PrecompiledEcRecover_err_none (C : Crypto) (x : List Nat) :
    (PrecompiledEcRecover C x).2 = none := by
  simp only [PrecompiledEcRecover]
  split
  · rfl
  · split <;> rfl

theorem PrecompiledEcRecover_reject (C : Crypto) (input : List Nat)
    (h : ValidateSignatureValues
          ((byteAt (RightPadBytes input ecRecoverInputLength) 63 + 229) % 256)
          (setBytes (slice (RightPadBytes input ecRecoverInputLength) 64 96))
          (setBytes (slice (RightPadBytes input ecRecoverInputLength) 96 128))
          false = false) :
    PrecompiledEcRecover C input = ([], none) := by
  simp only [PrecompiledEcRecover, h]
  simp

end EcrecoverGo

namespace EcrecoverGo

/-! ### Concrete fixtures used by the witnesses -/

set_option maxRecDepth 100000

/-- A deterministic instantiation of the external primitives for tests. -/
def testCrypto : Crypto where
  ecrecover := fun _ _ => some (List.replicate 65 1)
  keccak256 := fun _ => List.replicate 32 2

/-- An instantiation whose recovery primitive always fails. -/
def failCrypto : Crypto where
  ecrecover := fun _ _ => none
  keccak256 := fun _ => List.replicate 32 2

/-- The big-endian bytes of `secp256k1N - 1` (a maximal high-`s` value). -/
def sBytesNm1 : List Nat :=
  [0xFF, 0xFF, 0xFF, 0xFF, 0xFF, 0xFF, 0xFF, 0xFF,
   0xFF, 0xFF, 0xFF, 0xFF, 0xFF, 0xFF, 0xFF, 0xFE,
   0xBA, 0xAE, 0xDC, 0xE6, 0xAF, 0x48, 0xA0, 0x3B,
   0xBF, 0xD2, 0x5E, 0x8C, 0xD0, 0x36, 0x41, 0x40]

/-- A well-formed 128-byte precompile input: zero hash, zero padding,
`v = 27`, `r = 1`, `s = 1`. -/
def wValid : List Nat :=
  List.replicate 32 0 ++ List.replicate 31 0 ++ [27]
    ++ (List.replicate 31 0 ++ [1]) ++ (List.replicate 31 0 ++ [1])

/-- As `wValid` but with `s = secp256k1N - 1`, a high-`s` signature. -/
def wHighS : List Nat :=
  List.replicate 32 0 ++ List.replicate 31 0 ++ [27]
    ++ (List.replicate 31 0 ++ [1]) ++ sBytesNm1

/-- As `wValid` but with a non-zero byte inside the padding region. -/
def wBadPad : List Nat :=
  List.replicate 32 0 ++ (1 :: List.replicate 30 0) ++ [27]
    ++ (List.replicate 31 0 ++ [1]) ++ (List.replicate 31 0 ++ [1])

/-- A 65-byte compact signature `v‖r‖s` with `v = 27`, `r = s = 1`. -/
def vrsValid : List Nat :=
  27 :: ((List.replicate 31 0 ++ [1]) ++ (List.replicate 31 0 ++ [1]))

/-! ### Claim theorems -/

/-- C2: any non-zero byte in the padding region `input[32:63]` of the
128-byte normalized view makes `PrecompiledEcRecover` return an empty
output and a nil error, whatever the hash, `v`, `r` and `s` are. -/
theorem padding_rejection (C : Crypto) (input : List Nat)
    (hbad : allZero (slice (RightPadBytes input ecRecoverInputLength) 32 63)
      = false) :
    PrecompiledEcRecover C input = ([], none) := by
  simp only [PrecompiledEcRecover, hbad]
  simp

/-- Witness for C2 at the concrete input `wBadPad` (byte 32 is 1). -/
theorem padding_rejection_witness :
    allZero (slice (RightPadBytes wBadPad ecRecoverInputLength) 32 63) = false
    ∧ PrecompiledEcRecover testCrypto wBadPad = ([], none) :=
  ⟨by decide, padding_rejection testCrypto wBadPad (by decide)⟩

/-- C3: if `r = bigEndianInt(input[64:96])` and
`s = bigEndianInt(input[96:128])` of the normalized view satisfy `r = 0`,
`s = 0`, `r ≥ curveOrder` or `s ≥ curveOrder`, then `PrecompiledEcRecover`
returns an empty output and a nil error. -/
theorem range_rejection (C : Crypto) (input : List Nat)
    (h : setBytes (slice (RightPadBytes input ecRecoverInputLength) 64 96) = 0
      ∨ setBytes (slice (RightPadBytes input ecRecoverInputLength) 96 128) = 0
      ∨ secp256k1N
          ≤ setBytes (slice (RightPadBytes input ecRecoverInputLength) 64 96)
      ∨ secp256k1N
          ≤ setBytes (slice (RightPadBytes input ecRecoverInputLength) 96 128)) :
    PrecompiledEcRecover C input = ([], none) := by
  apply PrecompiledEcRecover_reject
  rcases h with h | h | h | h
  · simp [ValidateSignatureValues, h]
  · simp [ValidateSignatureValues, h]
  · have hlt := Nat.not_lt.mpr h
    simp [ValidateSignatureValues, hlt]
  · have hlt := Nat.not_lt.mpr h
    simp [ValidateSignatureValues, hlt]

/-- Witness for C3 at the all-zero input (there `r = 0`). -/
theorem range_rejection_witness :
    setBytes (slice (RightPadBytes (List.replicate 128 0)
        ecRecoverInputLength) 64 96) = 0
    ∧ PrecompiledEcRecover testCrypto (List.replicate 128 0) = ([], none) :=
  ⟨by decide,
   range_rejection testCrypto (List.replicate 128 0) (Or.inl (by decide))⟩

/-- C4: the recovery id is the byte subtraction `input[63] - 27` modulo 256
(so `input[63] = 0` yields 229), and any byte at position 63 of the
normalized view other than 27 or 28 makes `PrecompiledEcRecover` return an
empty output and a nil error. -/
theorem recovery_id_rejection (C : Crypto) (input : List Nat)
    (hb : byteAt (RightPadBytes input ecRecoverInputLength) 63 < 256)
    (h27 : byteAt (RightPadBytes input ecRecoverInputLength) 63 ≠ 27)
    (h28 : byteAt (RightPadBytes input ecRecoverInputLength) 63 ≠ 28) :
    PrecompiledEcRecover C input = ([], none) := by
  apply PrecompiledEcRecover_reject
  have hv : ¬((byteAt (RightPadBytes input ecRecoverInputLength) 63 + 229) % 256
        = 0
      ∨ (byteAt (RightPadBytes input ecRecoverInputLength) 63 + 229) % 256
        = 1) := by
    omega
  simp [ValidateSignatureValues, hv]

/-- Witness for C4 at the all-zero input: byte 63 is 0, the computed
recovery id is 229, and the input is rejected. -/
theorem recovery_id_rejection_witness :
    byteAt (RightPadBytes (List.replicate 128 0) ecRecoverInputLength) 63 = 0
    ∧ (byteAt (RightPadBytes (List.replicate 128 0) ecRecoverInputLength) 63
        + 229) % 256 = 229
    ∧ PrecompiledEcRecover testCrypto (List.replicate 128 0) = ([], none) :=
  ⟨by decide, by decide,
   recovery_id_rejection testCrypto (List.replicate 128 0)
     (by decide) (by decide) (by decide)⟩

/-- C10: on every input `PrecompiledEcRecover` returns a nil error, and its
output is either empty or exactly 32 bytes (given the Keccak-256 digest
contract); every validity failure is an empty output, never an error. -/
theorem output_shape_and_nil_error (C : Crypto) (input : List Nat)
    (hk : C.Keccak32) :
    (PrecompiledEcRecover C input).2 = none
    ∧ ((PrecompiledEcRecover C input).1 = []
      ∨ (PrecompiledEcRecover C input).1.length = 32) := by
  refine ⟨PrecompiledEcRecover_err_none C input, ?_⟩
  simp only [PrecompiledEcRecover]
  split
  · left
    rfl
  · split
    · left
      rfl
    · right
      rw [LeftPadBytes_length, List.length_drop, hk]
      omega

/-- Witness for C10 with the deterministic primitives at input `wValid`. -/
theorem output_shape_and_nil_error_witness :
    Crypto.Keccak32 testCrypto
    ∧ ((PrecompiledEcRecover testCrypto wValid).2 = none
      ∧ ((PrecompiledEcRecover testCrypto wValid).1 = []
        ∨ (PrecompiledEcRecover testCrypto wValid).1.length = 32)) :=
  ⟨fun _ => rfl,
   output_shape_and_nil_error testCrypto wValid (fun _ => rfl)⟩

/-- C1: when the padding region of the normalized view is all zero, the
signature values validate, and the recovery primitive (called with
`hash = input[0:32]` and `signature = input[64:128] ++ [recoveryId]`)
returns a public key, `PrecompiledEcRecover` outputs the last 20 bytes of
the Keccak-256 digest of the 64 bytes left after dropping the public key's
first byte, left-padded with zeros to 32 bytes, with a nil error. -/
theorem precompiled_success_output (C : Crypto) (input pub : List Nat)
    (hk : C.Keccak32)
    (hpub : pub.length = 65)
    (hpad : allZero (slice (RightPadBytes input ecRecoverInputLength) 32 63)
      = true)
    (hval : ValidateSignatureValues
        ((byteAt (RightPadBytes input ecRecoverInputLength) 63 + 229) % 256)
        (setBytes (slice (RightPadBytes input ecRecoverInputLength) 64 96))
        (setBytes (slice (RightPadBytes input ecRecoverInputLength) 96 128))
        false = true)
    (hrec : C.ecrecover (slice (RightPadBytes input ecRecoverInputLength) 0 32)
        (slice (RightPadBytes input ecRecoverInputLength) 64 128
          ++ [(byteAt (RightPadBytes input ecRecoverInputLength) 63 + 229)
              % 256])
      = some pub) :
    PrecompiledEcRecover C input
      = (LeftPadBytes ((C.keccak256 (pub.drop 1)).drop
          ((C.keccak256 (pub.drop 1)).length - 20)) 32, none)
    ∧ (pub.drop 1).length = 64
    ∧ (PrecompiledEcRecover C input).1.length = 32 := by
  have hmain : PrecompiledEcRecover C input
      = (LeftPadBytes ((C.keccak256 (pub.drop 1)).drop 12) 32, none) := by
    simp only [PrecompiledEcRecover, hpad, hval, hrec, Bool.not_true,
      Bool.or_self, Bool.false_eq_true, if_false]
  refine ⟨?_, ?_, ?_⟩
  · rw [hmain, hk]
  · simp [hpub]
  · rw [hmain]
    have hk32 := hk (pub.drop 1)
    simp only [LeftPadBytes_length, List.length_drop, hk32]
    omega

/-- Witness for C1: deterministic primitives at the valid input `wValid`. -/
theorem precompiled_success_output_witness :
    Crypto.Keccak32 testCrypto
    ∧ (List.replicate 65 1).length = 65
    ∧ allZero (slice (RightPadBytes wValid ecRecoverInputLength) 32 63) = true
    ∧ ValidateSignatureValues
        ((byteAt (RightPadBytes wValid ecRecoverInputLength) 63 + 229) % 256)
        (setBytes (slice (RightPadBytes wValid ecRecoverInputLength) 64 96))
        (setBytes (slice (RightPadBytes wValid ecRecoverInputLength) 96 128))
        false = true
    ∧ testCrypto.ecrecover
        (slice (RightPadBytes wValid ecRecoverInputLength) 0 32)
        (slice (RightPadBytes wValid ecRecoverInputLength) 64 128
          ++ [(byteAt (RightPadBytes wValid ecRecoverInputLength) 63 + 229)
              % 256])
      = some (List.replicate 65 1)
    ∧ (PrecompiledEcRecover testCrypto wValid
        = (LeftPadBytes
            ((testCrypto.keccak256 ((List.replicate 65 1).drop 1)).drop
              ((testCrypto.keccak256 ((List.replicate 65 1).drop 1)).length
                - 20)) 32, none)
      ∧ ((List.replicate 65 1).drop 1).length = 64
      ∧ (PrecompiledEcRecover testCrypto wValid).1.length = 32) :=
  ⟨fun _ => rfl, by decide, by decide, by decide, rfl,
   precompiled_success_output testCrypto wValid (List.replicate 65 1)
     (fun _ => rfl) (by decide) (by decide) (by decide) rfl⟩

/-- C5: the low-s rule is not applied (`enforceLowS = false`): a high-`s`
signature with `curveOrder/2 < s < curveOrder`, valid `r`, recovery id in
`\x7b0, 1\x7d` and zero padding passes the validation gate, and
`PrecompiledEcRecover` proceeds to the recovery primitive rather than
returning empty. -/
theorem low_s_not_enforced (C : Crypto) (input : List Nat)
    (hpad : allZero (slice (RightPadBytes input ecRecoverInputLength) 32 63)
      = true)
    (hv : (byteAt (RightPadBytes input ecRecoverInputLength) 63 + 229) % 256
        = 0
      ∨ (byteAt (RightPadBytes input ecRecoverInputLength) 63 + 229) % 256
        = 1)
    (hr : 0 < setBytes (slice (RightPadBytes input ecRecoverInputLength) 64 96)
      ∧ setBytes (slice (RightPadBytes input ecRecoverInputLength) 64 96)
        < secp256k1N)
    (hs : secp256k1N / 2
        < setBytes (slice (RightPadBytes input ecRecoverInputLength) 96 128)
      ∧ setBytes (slice (RightPadBytes input ecRecoverInputLength) 96 128)
        < secp256k1N) :
    ValidateSignatureValues
        ((byteAt (RightPadBytes input ecRecoverInputLength) 63 + 229) % 256)
        (setBytes (slice (RightPadBytes input ecRecoverInputLength) 64 96))
        (setBytes (slice (RightPadBytes input ecRecoverInputLength) 96 128))
        false = true
    ∧ PrecompiledEcRecover C input
        = (match C.ecrecover
              (slice (RightPadBytes input ecRecoverInputLength) 0 32)
              (slice (RightPadBytes input ecRecoverInputLength) 64 128
                ++ [(byteAt (RightPadBytes input ecRecoverInputLength) 63
                    + 229) % 256]) with
           | none => ([], none)
           | some pubKey =>
               (LeftPadBytes ((C.keccak256 (pubKey.drop 1)).drop 12) 32,
                none)) := by
  have hs0 : 0 < setBytes (slice (RightPadBytes input ecRecoverInputLength)
      96 128) :=
    lt_of_le_of_lt (Nat.zero_le _) hs.1
  have hVSV : ValidateSignatureValues
      ((byteAt (RightPadBytes input ecRecoverInputLength) 63 + 229) % 256)
      (setBytes (slice (RightPadBytes input ecRecoverInputLength) 64 96))
      (setBytes (slice (RightPadBytes input ecRecoverInputLength) 96 128))
      false = true := by
    simp [ValidateSignatureValues, hv, hr.1, hr.2, hs0, hs.2]
  refine ⟨hVSV, ?_⟩
  simp only [PrecompiledEcRecover, hpad, hVSV, Bool.not_true, Bool.or_self,
    Bool.false_eq_true, if_false]

/-- Witness for C5 at `wHighS`, whose `s` is `secp256k1N - 1`. -/
theorem low_s_not_enforced_witness :
    allZero (slice (RightPadBytes wHighS ecRecoverInputLength) 32 63) = true
    ∧ ((byteAt (RightPadBytes wHighS ecRecoverInputLength) 63 + 229) % 256 = 0
      ∨ (byteAt (RightPadBytes wHighS ecRecoverInputLength) 63 + 229) % 256
        = 1)
    ∧ (0 < setBytes (slice (RightPadBytes wHighS ecRecoverInputLength) 64 96)
      ∧ setBytes (slice (RightPadBytes wHighS ecRecoverInputLength) 64 96)
        < secp256k1N)
    ∧ (secp256k1N / 2
        < setBytes (slice (RightPadBytes wHighS ecRecoverInputLength) 96 128)
      ∧ setBytes (slice (RightPadBytes wHighS ecRecoverInputLength) 96 128)
        < secp256k1N)
    ∧ ValidateSignatureValues
        ((byteAt (RightPadBytes wHighS ecRecoverInputLength) 63 + 229) % 256)
        (setBytes (slice (RightPadBytes wHighS ecRecoverInputLength) 64 96))
        (setBytes (slice (RightPadBytes wHighS ecRecoverInputLength) 96 128))
        false = true :=
  ⟨by decide, by decide, by decide, by decide,
   (low_s_not_enforced testCrypto wHighS (by decide) (by decide) (by decide)
     (by decide)).1⟩

theorem RightPadBytes_of_le (s : List Nat) (l : Nat) (h : l ≤ s.length) :
    RightPadBytes s l = s := by
  unfold RightPadBytes
  rw [if_pos h]

/-- C6: `PrecompiledEcRecover` depends only on the 128-byte normalized view
of its input (right-padding with zeros, then the first 128 bytes); in
particular a 64-byte hash-only input is rejected with an empty output and
no runtime fault. -/
theorem input_normalization (C : Crypto) (x : List Nat) :
    PrecompiledEcRecover C x
      = PrecompiledEcRecover C
          ((RightPadBytes x ecRecoverInputLength).take 128)
    ∧ (x.length = 64 → PrecompiledEcRecover C x = ([], none)) := by
  constructor
  · have hlen : 128 ≤ (RightPadBytes x ecRecoverInputLength).length := by
      rw [RightPadBytes_length]
      simp [ecRecoverInputLength]
    have htake :
        ((RightPadBytes x ecRecoverInputLength).take 128).length = 128 := by
      rw [List.length_take]
      omega
    have hA : RightPadBytes
        ((RightPadBytes x ecRecoverInputLength).take 128)
        ecRecoverInputLength
        = (RightPadBytes x ecRecoverInputLength).take 128 :=
      RightPadBytes_of_le _ _ (by rw [htake]; simp [ecRecoverInputLength])
    simp only [PrecompiledEcRecover, hA]
    rw [slice_take _ 32 63 128 (by omega), slice_take _ 64 96 128 (by omega),
      slice_take _ 96 128 128 (by omega), slice_take _ 0 32 128 (by omega),
      slice_take _ 64 128 128 (by omega), byteAt_take _ 63 128 (by omega)]
  · intro h64
    apply PrecompiledEcRecover_reject
    have hpad : RightPadBytes x ecRecoverInputLength
        = x ++ List.replicate 64 0 := by
      unfold RightPadBytes ecRecoverInputLength
      rw [if_neg (by omega), h64]
    have hdrop : (x ++ List.replicate 64 0).drop 64 = List.replicate 64 0 := by
      have := List.drop_left x (List.replicate 64 0)
      rwa [h64] at this
    have hr0 : setBytes (slice (RightPadBytes x ecRecoverInputLength) 64 96)
        = 0 := by
      rw [hpad]
      unfold slice
      rw [List.drop_take, hdrop, List.take_replicate]
      exact setBytes_replicate_zero _
    simp [ValidateSignatureValues, hr0]

/-- Witness for C6 at a 64-byte hash-only input. -/
theorem input_normalization_witness :
    (List.replicate 64 5 : List Nat).length = 64
    ∧ PrecompiledEcRecover testCrypto (List.replicate 64 5) = ([], none) :=
  ⟨by decide,
   (input_normalization testCrypto (List.replicate 64 5)).2 (by decide)⟩

/-- C7: for a 32-byte hash and a 65-byte signature, the Adapter builds
exactly the layout `hash ‖ 31 zero bytes ‖ VRS[0] ‖ VRS[1:65]` (128 bytes,
with the padding region `[32:63]` zero by construction, so the Emulator's
padding check always passes) and its result is determined by
`PrecompiledEcRecover` on that buffer. -/
theorem adapter_packs_and_delegates (C : Crypto) (Hash VRS : List Nat)
    (hh : Hash.length = 32) (hv : VRS.length = 65) :
    packInput Hash VRS
      = Hash ++ List.replicate 31 0 ++ [VRS.headD 0] ++ VRS.drop 1
    ∧ (packInput Hash VRS).length = 128
    ∧ allZero (slice (packInput Hash VRS) 32 63) = true
    ∧ EcRecover C Hash VRS
        = (if (PrecompiledEcRecover C (packInput Hash VRS)).1.length < 32
           then none
           else some (BytesToAddress
             (((PrecompiledEcRecover C (packInput Hash VRS)).1.take 32).drop
               12), none)) := by
  have hp : packInput Hash VRS
      = Hash ++ List.replicate 31 0 ++ [VRS.headD 0] ++ VRS.drop 1 := by
    unfold packInput
    rw [hh, hv, List.take_of_length_le (by omega),
      List.take_of_length_le (by rw [List.length_drop]; omega)]
    simp
  have hplen : (packInput Hash VRS).length = 128 := by
    rw [hp]
    simp [hh, hv]
  have hz : slice (packInput Hash VRS) 32 63 = List.replicate 31 0 := by
    rw [hp]
    unfold slice
    rw [List.drop_take, List.drop_append_eq_append_drop,
      List.drop_append_eq_append_drop, List.drop_append_eq_append_drop,
      List.drop_eq_nil_of_le (by omega), hh]
    simp [List.take_append_eq_append_take]
  refine ⟨hp, hplen, by rw [hz]; exact allZero_replicate 31, ?_⟩
  simp only [EcRecover]
  rw [if_neg (by omega), PrecompiledEcRecover_err_none]

/-- Witness for C7 at a zero hash and the compact signature `vrsValid`. -/
theorem adapter_packs_and_delegates_witness :
    (List.replicate 32 0 : List Nat).length = 32
    ∧ vrsValid.length = 65
    ∧ allZero (slice (packInput (List.replicate 32 0) vrsValid) 32 63)
      = true :=
  ⟨by decide, by decide,
   (adapter_packs_and_delegates testCrypto (List.replicate 32 0) vrsValid
     (by decide) (by decide)).2.2.1⟩

/-- C8 (latent defect, as the claim states): whenever the Emulator returns
an empty output for an Adapter-built input, the Adapter's unconditional
`output[12:32]` slice is out of bounds and `EcRecover` faults at runtime
(modelled `none`) instead of returning an "invalid signature" error. -/
theorem adapter_faults_on_empty_output (C : Crypto) (Hash VRS : List Nat)
    (hv : VRS.length = 65)
    (hempty : (PrecompiledEcRecover C (packInput Hash VRS)).1 = []) :
    EcRecover C Hash VRS = none := by
  simp only [EcRecover]
  rw [if_neg (by omega), PrecompiledEcRecover_err_none, hempty]
  simp

/-- Witness for C8: a failing recovery primitive on an otherwise valid
signature yields an empty Emulator output and an Adapter runtime fault. -/
theorem adapter_faults_on_empty_output_witness :
    vrsValid.length = 65
    ∧ (PrecompiledEcRecover failCrypto
        (packInput (List.replicate 32 0) vrsValid)).1 = []
    ∧ EcRecover failCrypto (List.replicate 32 0) vrsValid = none :=
  ⟨by decide, by decide,
   adapter_faults_on_empty_output failCrypto (List.replicate 32 0) vrsValid
     (by decide) (by decide)⟩

/-- C9 (code defect): `EcRecover` called with a signature buffer shorter
than 65 bytes reads `VRS[0]` and slices `VRS[1:65]` without any guard, so
it faults at runtime (modelled `none`) instead of returning the
descriptive error the spec requires; here evaluated at a 1-byte buffer. -/
theorem adapter_short_sig_fault :
    EcRecover testCrypto (List.replicate 32 0) [27] = none := by
  rfl

end EcrecoverGo
